import Mathlib

/-!
Verification of `contrib/seeds/makeseeds.py`: a shallow embedding of the
seed-list generation pipeline (record parser, quality filter, collision
filter, ASN origin-diversity filter, deterministic sorter/emitter) with
theorems about the claims of the specification.

Conventions of the embedding:
* Python `None` / raised exception / produced record are the three
  constructors of `ParseResult`.
* Python floats appear only as the uptime percentage, parsed from decimal
  literals such as `"100.0"`; they are embedded as exact rationals.
* The regular expressions are embedded as deterministic matchers; each
  doc comment records the equivalence argument with the Python pattern.
* The DNS ASN lookup (`dns.resolver.query` plus the `int(...)` parse of
  the TXT answer inside the `try` block) is a black-box oracle
  `String → Option Int`.
-/

namespace Makeseeds

/-- The `net` field of a parsed record: `'ipv4'`, `'ipv6'` or `'onion'`. -/
inductive Net where
  | ipv4 : Net
  | ipv6 : Net
  | onion : Net
deriving DecidableEq, Repr, Inhabited

/-- The `sortkey` field: the numeric IP for IPv4 records, the textual
address for IPv6 and onion records (Python stores an `int` or a `str`). -/
inductive SortKey where
  | num : Nat → SortKey
  | str : String → SortKey
deriving DecidableEq, Repr, Inhabited

/-- The dictionary built by `parseline` (one key per entry, in source
order). `ipnum` is `None` for non-IPv4 records. -/
structure Record where
  net : Net
  ip : String
  port : Nat
  ipnum : Option Nat
  uptime : ℚ
  lastsuccess : Int
  version : Int
  agent : String
  service : Int
  blocks : Int
  sortkey : SortKey
deriving DecidableEq, Repr, Inhabited

/-- Outcome of `parseline` on one line: `rejected` is Python `return None`,
`error` is an uncaught exception (bad conversion or index out of range),
`ok` is a constructed record dictionary. -/
inductive ParseResult where
  | rejected : ParseResult
  | error : ParseResult
  | ok : Record → ParseResult
deriving DecidableEq, Repr

/-- Splitting a character list on whitespace runs, dropping empty pieces
(the behaviour of Python `str.split()` with no separator; the whitespace
class covers the space, tab, carriage-return and newline characters that
can reach a report line). -/
def pySplitAux : List Char → List Char → List (List Char)
  | [], acc => if acc.isEmpty then [] else [acc.reverse]
  | c :: rest, acc =>
    if c.isWhitespace then
      if acc.isEmpty then pySplitAux rest [] else acc.reverse :: pySplitAux rest []
    else pySplitAux rest (c :: acc)

/-- Python `line.split()`: split on whitespace runs, dropping empty pieces. -/
def pySplit (s : String) : List String :=
  (pySplitAux s.toList []).map String.mk

/-- Python `s[1:]`. -/
def pyTail (s : String) : String := String.mk (s.toList.drop 1)

/-- Python `s[:-1]`. -/
def pyDropLast (s : String) : String := String.mk s.toList.dropLast

/-- Strip surrounding whitespace (what `int()` and `float()` tolerate). -/
def trimWs (cs : List Char) : List Char :=
  ((cs.dropWhile Char.isWhitespace).reverse.dropWhile Char.isWhitespace).reverse

/-- Decimal value of a digit run. -/
def digitsVal (ds : List Char) : Nat :=
  ds.foldl (fun a c => 10 * a + (c.toNat - 48)) 0

/-- A nonempty all-digit run to its decimal value. -/
def decToNat? (cs : List Char) : Option Nat :=
  if !cs.isEmpty && cs.all Char.isDigit then some (digitsVal cs) else none

/-- Python `int(s)` on the decimal fragment used by the script: optional
surrounding whitespace, an optional sign, then decimal digits. -/
def pyInt (s : String) : Option Int :=
  match trimWs s.toList with
  | '-' :: rest => (decToNat? rest).map (fun n => -(n : Int))
  | '+' :: rest => (decToNat? rest).map (fun n => (n : Int))
  | cs => (decToNat? cs).map (fun n => (n : Int))

/-- Value of one hexadecimal digit. -/
def hexDigitVal (c : Char) : Option Nat :=
  if c.isDigit then some (c.toNat - 48)
  else if 'a' ≤ c && c ≤ 'f' then some (c.toNat - 87)
  else if 'A' ≤ c && c ≤ 'F' then some (c.toNat - 55)
  else none

/-- A nonempty all-hex run to its value. -/
def hexToNat? (cs : List Char) : Option Nat :=
  if !cs.isEmpty && cs.all (fun c => (hexDigitVal c).isSome) then
    some (cs.foldl (fun a c => 16 * a + (hexDigitVal c).getD 0) 0)
  else none

/-- The optional `0x` / `0X` marker `int(s, 16)` accepts. -/
def strip0x : List Char → List Char
  | '0' :: 'x' :: rest => rest
  | '0' :: 'X' :: rest => rest
  | cs => cs

/-- Python `int(s, 16)`: optional whitespace, sign, optional `0x` marker,
hex digits. Used for the advertised-services field. -/
def pyIntHex (s : String) : Option Int :=
  match trimWs s.toList with
  | '-' :: rest => (hexToNat? (strip0x rest)).map (fun n => -(n : Int))
  | '+' :: rest => (hexToNat? (strip0x rest)).map (fun n => (n : Int))
  | cs => (hexToNat? (strip0x cs)).map (fun n => (n : Int))

/-- Splitting on `'.'`, keeping empty pieces (Python `str.split('.')`). -/
def splitDotAux : List Char → List Char → List (List Char)
  | [], acc => [acc.reverse]
  | c :: rest, acc =>
    if c = '.' then acc.reverse :: splitDotAux rest [] else splitDotAux rest (c :: acc)

/-- The unsigned part of a decimal float literal — digits, an optional
dot, optional fraction digits — as a numerator/denominator pair whose
rational value `x + y / 10 ^ k` is the literal's exact value. -/
def pyFloatBody (cs : List Char) : Option (Nat × Nat) :=
  match splitDotAux cs [] with
  | [a] => (decToNat? a).map (fun n => (n, 1))
  | [a, b] =>
    if a.isEmpty && b.isEmpty then none
    else
      match (if a.isEmpty then some 0 else decToNat? a),
            (if b.isEmpty then some 0 else decToNat? b) with
      | some x, some y => some (x * 10 ^ b.length + y, 10 ^ b.length)
      | _, _ => none
  | _ => none

/-- Python `float(s)` on the decimal literals the crawl report uses for the
uptime field (optional sign, digits, optional fraction; exponent, infinity
and NaN forms do not occur in the report and are not modelled). The result
is the exact rational value. -/
def pyFloat (s : String) : Option ℚ :=
  match trimWs s.toList with
  | '-' :: rest => (pyFloatBody rest).map (fun p => mkRat (-(p.1 : Int)) p.2)
  | '+' :: rest => (pyFloatBody rest).map (fun p => mkRat p.1 p.2)
  | cs => (pyFloatBody cs).map (fun p => mkRat p.1 p.2)

/-- Python `sline[1] == 0`: a `str` is never `==` to an `int`, so the
"Skip bad results" branch of `parseline` can never fire. Embedded as the
constantly-false comparison the interpreter evaluates. -/
def pyStrEqInt (_s : String) (_n : Int) : Bool := false

/-- Consume one expected character. -/
def expectChar (c : Char) : List Char → Option (List Char)
  | x :: rest => if x = c then some rest else none
  | [] => none

/-- Consume an expected literal character sequence. -/
def expectChars : List Char → List Char → Option (List Char)
  | [], cs => some cs
  | e :: es, cs => (expectChar e cs).bind (expectChars es)

/-- Consume a run of 1-3 decimal digits (the `\d{1,3}` octet group; the
maximal run is forced because the following pattern character, `.` or `:`,
is never a digit, so greedy matching with backtracking and maximal munch
agree). -/
def parseOctet (cs : List Char) : Option (List Char × List Char) :=
  let ds := cs.takeWhile Char.isDigit
  if 1 ≤ ds.length && ds.length ≤ 3 then some (ds, cs.dropWhile Char.isDigit) else none

/-- `PATTERN_IPV4 = ^((\d{1,3})\.(\d{1,3})\.(\d{1,3})\.(\d{1,3})):(\d+)$`
applied to one whitespace-free token. Returns group 1 (the dotted quad),
the four octet values (groups 2-5 read with `int`), and the port (group 6).
Python's `$` would also accept one trailing newline, which a token produced
by `line.split()` cannot contain. -/
def matchIPv4 (t : String) : Option (String × (Nat × Nat × Nat × Nat) × Nat) := do
  let (d1, r) ← parseOctet t.toList
  let r ← expectChar '.' r
  let (d2, r) ← parseOctet r
  let r ← expectChar '.' r
  let (d3, r) ← parseOctet r
  let r ← expectChar '.' r
  let (d4, r) ← parseOctet r
  let r ← expectChar ':' r
  if 1 ≤ (r.takeWhile Char.isDigit).length && (r.dropWhile Char.isDigit).isEmpty then
    some (String.mk (d1 ++ '.' :: d2 ++ '.' :: d3 ++ '.' :: d4),
      (digitsVal d1, digitsVal d2, digitsVal d3, digitsVal d4),
      digitsVal (r.takeWhile Char.isDigit))
  else none

/-- Character class `[0-9a-z:]` of the IPv6 pattern. -/
def isIPv6Char (c : Char) : Bool :=
  c.isDigit || ('a' ≤ c && c ≤ 'z') || c = ':'

/-- `PATTERN_IPV6 = ^\[([0-9a-z:]+)\]:(\d+)$` applied to one token. The
group is the maximal class run after `[` (the class excludes `]`, so
backtracking cannot move the group end). Returns group 1 and the port. -/
def matchIPv6 (t : String) : Option (String × Nat) := do
  let r ← expectChar '[' t.toList
  let g := r.takeWhile isIPv6Char
  if g.isEmpty then none
  else do
    let r ← expectChar ']' (r.dropWhile isIPv6Char)
    let r ← expectChar ':' r
    if 1 ≤ (r.takeWhile Char.isDigit).length && (r.dropWhile Char.isDigit).isEmpty then
      some (String.mk g, digitsVal (r.takeWhile Char.isDigit))
    else none

/-- Character class `[abcdefghijklmnopqrstuvwxyz234567]` (base32). -/
def isBase32Char (c : Char) : Bool :=
  ('a' ≤ c && c ≤ 'z') || ('2' ≤ c && c ≤ '7')

/-- `PATTERN_ONION = ^([a-z2-7]{16}\.onion):(\d+)$` applied to one token;
group 1 includes the `.onion` suffix. -/
def matchOnion (t : String) : Option (String × Nat) :=
  let cs := t.toList
  let name := cs.take 16
  if name.length = 16 && name.all isBase32Char then do
    let r ← expectChars ".onion:".toList (cs.drop 16)
    if 1 ≤ (r.takeWhile Char.isDigit).length && (r.dropWhile Char.isDigit).isEmpty then
      some (String.mk (name ++ ".onion".toList), digitsVal (r.takeWhile Char.isDigit))
    else none
  else none

/-- `PATTERN_AGENT = ^(/ZMGCore:2.2.(0|1|99)/)$` where the two unescaped
dots match any character other than a newline. Python's `$` would also
accept one trailing newline; the argument (a user agent rebuilt from
whitespace-free tokens, with spaces already substituted) cannot contain
one. -/
def matchAgent (s : String) : Bool :=
  match s.toList with
  | '/' :: 'Z' :: 'M' :: 'G' :: 'C' :: 'o' :: 'r' :: 'e' :: ':' :: '2' :: c1 :: '2' :: c2 :: rest =>
    c1 != '\n' && c2 != '\n' &&
      (rest = ['0', '/'] || rest = ['1', '/'] || rest = ['9', '9', '/'])
  | _ => false

/-- Lines 68-99 of `parseline`: the "Skip bad results" comparison, then the
positional field extractions in source order (uptime, last success,
version, user agent, services, blocks), then the result dictionary. The
user-agent step evaluates `sline[11][1:] + sline[12][:-1]` when
`len(sline) > 11` and `sline[11][1:-1]` otherwise; under the earlier
`len(sline) >= 11` guard the index accesses raise `IndexError` exactly
when the line has 11 or 12 tokens. -/
def extractFields (sline : List String) (net : Net) (zmgtr : String) (port : Nat)
    (ipnum : Option Nat) (sortkey : SortKey) : ParseResult :=
  if pyStrEqInt (sline.getD 1 "") 0 then ParseResult.rejected
  else
    match pyFloat (pyDropLast (sline.getD 7 "")) with
    | none => ParseResult.error
    | some uptime30 =>
      match pyInt (sline.getD 2 "") with
      | none => ParseResult.error
      | some lastsuccess =>
        match pyInt (sline.getD 10 "") with
        | none => ParseResult.error
        | some version =>
          match (if 11 < sline.length then
                   if 12 < sline.length then
                     some (pyTail (sline.getD 11 "") ++ pyDropLast (sline.getD 12 ""))
                   else none
                 else none) with
          | none => ParseResult.error
          | some agent =>
            match pyIntHex (sline.getD 9 "") with
            | none => ParseResult.error
            | some service =>
              match pyInt (sline.getD 8 "") with
              | none => ParseResult.error
              | some blocks =>
                ParseResult.ok
                  ⟨net, zmgtr, port, ipnum, uptime30, lastsuccess, version,
                    agent, service, blocks, sortkey⟩

/-- Numeric IP reconstruction of the sanity-check loop:
`ip = ip + (octet << (8*(3-i)))`. -/
def ipNumOf (o1 o2 o3 o4 : Nat) : Nat :=
  (o1 <<< 24) + (o2 <<< 16) + (o3 <<< 8) + o4

/-- The body of `parseline` after tokenization: reject short lines, match
the three address grammars in order (IPv4 with octet range and nonzero
sanity checks, IPv6 with the `::` rejection, onion), then extract the
fields. Of the Python octet range check `int(...) < 0 or int(...) > 255`,
only the upper half is represented: the group is a run of digits, so the
`< 0` half can never fire. -/
def parselineTokens (sline : List String) : ParseResult :=
  if sline.length < 11 then ParseResult.rejected
  else
    match matchIPv4 (sline.getD 0 "") with
    | some (addr, octets, port) =>
      if 255 < octets.1 || 255 < octets.2.1 || 255 < octets.2.2.1 || 255 < octets.2.2.2 then
        ParseResult.rejected
      else
        let ip := ipNumOf octets.1 octets.2.1 octets.2.2.1 octets.2.2.2
        if ip = 0 then ParseResult.rejected
        else extractFields sline Net.ipv4 addr port (some ip) (SortKey.num ip)
    | none =>
      match matchIPv6 (sline.getD 0 "") with
      | some (g, port) =>
        if g = "::" then ParseResult.rejected
        else extractFields sline Net.ipv6 g port none (SortKey.str g)
      | none =>
        match matchOnion (sline.getD 0 "") with
        | some (g, port) => extractFields sline Net.onion g port none (SortKey.str g)
        | none => ParseResult.rejected

/-- `parseline(line)`: `sline = line.split()`, then the token-level body. -/
def parseline (line : String) : ParseResult :=
  parselineTokens (pySplit line)

/-- `NSEEDS = 512`: the global maximum passed as `max_total`. -/
def NSEEDS : Nat := 512

/-- `MAX_SEEDS_PER_ASN = 2`: the per-origin cap passed as `max_per_asn`. -/
def MAX_SEEDS_PER_ASN : Nat := 2

/-- `MIN_BLOCKS = 615801`. -/
def MIN_BLOCKS : Int := 615801

/-- `SUSPICIOUS_HOSTS = { "" }`: the deny-list of host identifiers. -/
def SUSPICIOUS_HOSTS : List String := [""]

/-- `re.sub(' ', '-', s)`: replace each space by a hyphen. -/
def spaceToHyphen (s : String) : String :=
  String.mk (s.toList.map (fun c => if c = ' ' then '-' else c))

/-- Lines 146-154 of `main`: the five quality gates in source order
(deny-list, minimum blocks, service bit 1, uptime above 50, accepted
user agent after space substitution). -/
def qualityFilter (zmg : List Record) : List Record :=
  ((((zmg.filter (fun ip => !(SUSPICIOUS_HOSTS.contains ip.ip))).filter
      (fun ip => decide (MIN_BLOCKS ≤ ip.blocks))).filter
      (fun ip => Int.land ip.service 1 == 1)).filter
      (fun ip => decide ((50 : ℚ) < ip.uptime))).filter
      (fun ip => matchAgent (spaceToHyphen ip.agent))

/-- Boolean lexicographic order on the sort key
`(x['uptime'], x['lastsuccess'], x['ip'])` of the first sort pass. -/
def key1Le (x y : Record) : Bool :=
  decide (x.uptime < y.uptime) ||
    (decide (x.uptime = y.uptime) &&
      (decide (x.lastsuccess < y.lastsuccess) ||
        (decide (x.lastsuccess = y.lastsuccess) && decide (x.ip ≤ y.ip))))

/-- `zmg.sort(key=lambda x: (x['uptime'], x['lastsuccess'], x['ip']),
reverse=True)`: a stable descending sort, which is the stable merge sort
under the flipped comparator (ties keep their original order in both). -/
def sort1 (zmg : List Record) : List Record :=
  zmg.mergeSort (fun a b => key1Le b a)

/-- One loop step of `filtermultiport`'s histogram construction:
`hist[ip['sortkey']].append(ip)` on a `defaultdict(list)`, whose keys keep
first-insertion order. -/
def histAdd (h : List (SortKey × List Record)) (r : Record) :
    List (SortKey × List Record) :=
  if h.any (fun kv => kv.1 == r.sortkey) then
    h.map (fun kv => if kv.1 == r.sortkey then (kv.1, kv.2 ++ [r]) else kv)
  else h ++ [(r.sortkey, [r])]

/-- `filtermultiport(zmg)`: group by `sortkey`, then keep `value[0]` of
each group of size exactly one, in key first-insertion order. -/
def filtermultiport (zmg : List Record) : List Record :=
  ((zmg.foldl histAdd []).filter (fun kv => kv.2.length == 1)).map
    (fun kv => kv.2.headI)

/-- The diagnostic line written to `sys.stderr` when an ASN lookup fails. -/
def asnErrMsg (ip : String) : String :=
  "ERR: Could not resolve ASN for \"" ++ ip ++ "\"\n"

/-- The `for ip in zmg_ipv4` loop of `filterbyasn`, with the accepted list
`result`, the `asn_count` dictionary (total function defaulting to 0, as
after `if asn not in asn_count: asn_count[asn] = 0`), and the stderr
lines. The `try` block's lookup-and-parse is the oracle; `except` appends
the diagnostic and continues. -/
def filterbyasnGo (oracle : String → Option Int) (maxPerAsn maxTotal : Nat) :
    List Record → List Record → (Int → Nat) → List String →
    List Record × List String
  | [], result, _, errs => (result, errs)
  | ip :: rest, result, asnCount, errs =>
    if result.length = maxTotal then (result, errs)
    else
      match oracle ip.ip with
      | none =>
        filterbyasnGo oracle maxPerAsn maxTotal rest result asnCount
          (errs ++ [asnErrMsg ip.ip])
      | some asn =>
        if asnCount asn = maxPerAsn then
          filterbyasnGo oracle maxPerAsn maxTotal rest result asnCount errs
        else
          filterbyasnGo oracle maxPerAsn maxTotal rest (result ++ [ip])
            (fun a => if a = asn then asnCount a + 1 else asnCount a) errs

/-- `filterbyasn(zmg, max_per_asn, max_total)`: sift by network kind, cap
the IPv4 group per ASN and globally, then add back all IPv6 and onion
records. The second component collects the stderr diagnostics. -/
def filterbyasn (oracle : String → Option Int) (maxPerAsn maxTotal : Nat)
    (zmg : List Record) : List Record × List String :=
  let zmg_ipv4 := zmg.filter (fun ip => ip.net == Net.ipv4)
  let zmg_ipv6 := zmg.filter (fun ip => ip.net == Net.ipv6)
  let zmg_onion := zmg.filter (fun ip => ip.net == Net.onion)
  let p := filterbyasnGo oracle maxPerAsn maxTotal zmg_ipv4 [] (fun _ => 0) []
  (p.1 ++ zmg_ipv6 ++ zmg_onion, p.2)

/-- The `'ipv4'` / `'ipv6'` / `'onion'` strings stored in `ip['net']`,
compared lexicographically by the second sort pass. -/
def netStr : Net → String
  | Net.ipv4 => "ipv4"
  | Net.ipv6 => "ipv6"
  | Net.onion => "onion"

/-- Order on stored sort keys. Records with equal `net` hold keys of the
same kind (a number for IPv4, a string otherwise), which is the only case
the second sort pass can compare; across kinds Python would raise
`TypeError`, and the embedding picks an arbitrary fixed answer. -/
def skLe : SortKey → SortKey → Bool
  | SortKey.num m, SortKey.num n => decide (m ≤ n)
  | SortKey.str s, SortKey.str t => decide (s ≤ t)
  | SortKey.num _, SortKey.str _ => true
  | SortKey.str _, SortKey.num _ => false

/-- Boolean lexicographic order on `(x['net'], x['sortkey'])` of the final
sort pass. -/
def key2Le (x y : Record) : Bool :=
  decide (netStr x.net < netStr y.net) ||
    (decide (netStr x.net = netStr y.net) && skLe x.sortkey y.sortkey)

/-- `zmg.sort(key=lambda x: (x['net'], x['sortkey']))`: the deterministic
final ascending sort. -/
def sort2 (zmg : List Record) : List Record :=
  zmg.mergeSort key2Le

/-- Decimal digits of a natural number (fuel-based so that it is
kernel-reducible); `natRepr n` is what `'%i' % n` prints. -/
def natDigitsAux : Nat → Nat → List Char
  | 0, _ => []
  | fuel + 1, n =>
    if n < 10 then [Char.ofNat (48 + n)]
    else natDigitsAux fuel (n / 10) ++ [Char.ofNat (48 + n % 10)]

/-- Decimal rendering of a port number. -/
def natRepr (n : Nat) : String := String.mk (natDigitsAux (n + 1) n)

/-- The print statement of the output loop: `'[%s]:%i'` for IPv6 records,
`'%s:%i'` otherwise. -/
def formatRecord (r : Record) : String :=
  if r.net == Net.ipv6 then "[" ++ r.ip ++ "]:" ++ natRepr r.port
  else r.ip ++ ":" ++ natRepr r.port

/-- The emitted lines: the final set sorted by `(net, sortkey)`, one
formatted address per line. -/
def emitLines (zmg : List Record) : List String :=
  (sort2 zmg).map formatRecord

/-- The record pipeline of `main` after parsing: quality gates, the
availability sort, `filtermultiport`, `filterbyasn` with the configured
caps. -/
def pipeline (oracle : String → Option Int) (records : List Record) :
    List Record :=
  (filterbyasn oracle MAX_SEEDS_PER_ASN NSEEDS
    (filtermultiport (sort1 (qualityFilter records)))).1

/-- A parse outcome as the effect it has on the surrounding list
comprehension: `None` is kept as a skippable entry, an exception
propagates. -/
def toExceptRecord : ParseResult → Except Unit (Option Record)
  | ParseResult.rejected => Except.ok none
  | ParseResult.error => Except.error ()
  | ParseResult.ok r => Except.ok (some r)

/-- The list comprehension `[parseline(line) for line in lines]`: the
first uncaught exception aborts it, otherwise it collects the outcomes. -/
def parseAll : List String → Except Unit (List (Option Record))
  | [] => Except.ok []
  | l :: ls =>
    match toExceptRecord (parseline l) with
    | Except.error e => Except.error e
    | Except.ok x =>
      match parseAll ls with
      | Except.error e => Except.error e
      | Except.ok xs => Except.ok (x :: xs)

/-- `main`: parse every line (an uncaught exception in the comprehension
aborts the run), drop the `None` entries, run the pipeline, and emit the
sorted output lines. -/
def runMain (oracle : String → Option Int) (lines : List String) :
    Except Unit (List String) :=
  match parseAll lines with
  | Except.error e => Except.error e
  | Except.ok parsed => Except.ok (emitLines (pipeline oracle (parsed.filterMap id)))

/-- Whether a run completed without an uncaught exception. -/
def exceptOk {α : Type} : Except Unit α → Bool
  | Except.ok _ => true
  | Except.error _ => false

/-- The keys of the histogram of `filtermultiport`, in first-insertion
order. -/
def keysOf (zmg : List Record) : List SortKey :=
  zmg.foldl
    (fun ks r => if ks.any (fun k => k == r.sortkey) then ks else ks ++ [r.sortkey]) []

/-- A good IPv4 record used by concrete witnesses. -/
def sample4 : Record :=
  ⟨Net.ipv4, "1.2.3.4", 8333, some 16909060, 100, 1614000000, 70015,
    "/ZMGCore:2.2.0/", 9, 700000, SortKey.num 16909060⟩

/-- A good IPv6 record used by concrete witnesses. -/
def sample6 : Record :=
  ⟨Net.ipv6, "2001:db8::1", 8333, none, 100, 1614000000, 70015,
    "/ZMGCore:2.2.0/", 9, 700000, SortKey.str "2001:db8::1"⟩

/-! ## Parser theorems -/

/-- **C10** — Every line that splits into fewer than 11 whitespace-separated
tokens is rejected by `parseline`: no record is produced. -/
theorem C10_short_line_rejected (line : String)
    (h : (pySplit line).length < 11) : parseline line = ParseResult.rejected := by
  unfold parseline parselineTokens
  rw [if_pos h]

/-- Witness for C10 at the ten-token line `"a b c d e f g h i j"`. -/
theorem C10_short_line_rejected_witness :
    (pySplit "a b c d e f g h i j").length < 11 ∧
      parseline "a b c d e f g h i j" = ParseResult.rejected :=
  ⟨by decide, C10_short_line_rejected "a b c d e f g h i j" (by decide)⟩

/-- A token that the IPv6 pattern matches starts with `[`, which no IPv4
match can survive (its first octet group would be empty). -/
theorem matchIPv4_eq_none_of_matchIPv6 (t : String) (p : String × Nat)
    (h : matchIPv6 t = some p) : matchIPv4 t = none := by
  unfold matchIPv6 at h
  unfold matchIPv4
  cases ht : t.toList with
  | nil => rw [ht] at h; simp [expectChar] at h
  | cons c cs =>
    rw [ht] at h
    have hc : c = '[' := by
      by_contra hne
      simp [expectChar, hne] at h
    subst hc
    simp [expectChar, parseOctet, List.takeWhile]

/-- **C9** — A line whose first token is an IPv4 address with numeric value
zero (the `0.0.0.0` forms), and a line whose first token is the bracketed
IPv6 address `::`, are both rejected by the parser: no record is produced. -/
theorem C9_zero_address_rejected (line t : String) (rest : List String)
    (hsplit : pySplit line = t :: rest) :
    (∀ addr o1 o2 o3 o4 port,
        matchIPv4 t = some (addr, (o1, o2, o3, o4), port) →
        ipNumOf o1 o2 o3 o4 = 0 → parseline line = ParseResult.rejected) ∧
    (∀ g port, matchIPv6 t = some (g, port) → g = "::" →
        parseline line = ParseResult.rejected) := by
  constructor
  · intro addr o1 o2 o3 o4 port hm hip
    have hz : o1 = 0 ∧ o2 = 0 ∧ o3 = 0 ∧ o4 = 0 := by
      unfold ipNumOf at hip
      simp only [Nat.shiftLeft_eq] at hip
      omega
    obtain ⟨h1, h2, h3, h4⟩ := hz
    subst h1; subst h2; subst h3; subst h4
    unfold parseline
    rw [hsplit]
    unfold parselineTokens
    by_cases hlen : (t :: rest).length < 11
    · rw [if_pos hlen]
    · rw [if_neg hlen]
      simp only [List.getD_cons_zero]
      rw [hm]
      simp [ipNumOf]
  · intro g port hm hg
    subst hg
    unfold parseline
    rw [hsplit]
    unfold parselineTokens
    by_cases hlen : (t :: rest).length < 11
    · rw [if_pos hlen]
    · rw [if_neg hlen]
      simp only [List.getD_cons_zero]
      rw [matchIPv4_eq_none_of_matchIPv6 t _ hm, hm]
      simp

/-- Witness for C9: the `0.0.0.0` and `[::]` head tokens on otherwise
well-formed lines. -/
theorem C9_zero_address_rejected_witness :
    parseline "0.0.0.0:8333 1 1614000000 0 0 0 0 100.0% 700000 9 70015 /x/ y"
        = ParseResult.rejected ∧
      parseline "[::]:8333 1 1614000000 0 0 0 0 100.0% 700000 9 70015 /x/ y"
        = ParseResult.rejected :=
  ⟨(C9_zero_address_rejected
      "0.0.0.0:8333 1 1614000000 0 0 0 0 100.0% 700000 9 70015 /x/ y"
      "0.0.0.0:8333" ["1", "1614000000", "0", "0", "0", "0", "100.0%",
        "700000", "9", "70015", "/x/", "y"] (by decide)).1
    "0.0.0.0" 0 0 0 0 8333 (by decide) (by decide),
   (C9_zero_address_rejected
      "[::]:8333 1 1614000000 0 0 0 0 100.0% 700000 9 70015 /x/ y"
      "[::]:8333" ["1", "1614000000", "0", "0", "0", "0", "100.0%",
        "700000", "9", "70015", "/x/", "y"] (by decide)).2
    "::" 8333 (by decide) rfl⟩

/-- **C5** — The user-agent token guard compares against 11 instead of 12,
so a fully well-formed line with exactly 12 tokens takes the
`len(sline) > 11` branch and evaluates the absent `sline[12]`: `parseline`
raises `IndexError` instead of returning the record whose agent is token 11
with its delimiters stripped. For 13 or more tokens the concatenation
branch behaves as specified: the agent is token 11 without its first
character followed by token 12 without its last character. -/
theorem C5_agent_guard_failing_eval :
    parseline "1.2.3.4:8333 1 1614000000 0 0 0 0 100.0% 700000 9 70015 /ZMGCore:2.2.0/"
        = ParseResult.error ∧
      parseline "1.2.3.4:8333 1 1614000000 0 0 0 0 100.0% 700000 9 70015 /ZMGCore 2.2.0/"
        = ParseResult.ok
            ⟨Net.ipv4, "1.2.3.4", 8333, some 16909060, 100, 1614000000, 70015,
              "ZMGCore2.2.0", 9, 700000, SortKey.num 16909060⟩ := by
  exact ⟨by decide, by decide⟩

/-- **C2 (counterexample)** — A line whose uptime field fails float
conversion (`float("abc")`) raises an exception that `main` does not catch:
the whole run aborts instead of skipping the line. -/
theorem C2_conversion_failure_aborts_run :
    runMain (fun _ => some 0)
        ["1.2.3.4:8333 1 1614000000 0 0 0 0 abc% 700000 9 70015 /x/ y"]
      = Except.error () := by
  rfl

/-- The parse comprehension of `main` succeeds exactly when no line raises. -/
theorem parseAll_ok_iff (lines : List String) :
    (∃ v, parseAll lines = Except.ok v) ↔
      ∀ l ∈ lines, parseline l ≠ ParseResult.error := by
  induction lines with
  | nil => simp [parseAll]
  | cons l ls ih =>
    unfold parseAll
    cases hpl : parseline l with
    | error =>
      simp only [toExceptRecord]
      constructor
      · rintro ⟨v, hv⟩; cases hv
      · intro h; exact absurd hpl (h l (by simp))
    | rejected =>
      simp only [toExceptRecord]
      cases hp : parseAll ls with
      | error e =>
        rw [hp] at ih
        constructor
        · rintro ⟨v, hv⟩; cases hv
        · intro h
          rcases ih.mpr (fun x hx => h x (List.mem_cons_of_mem _ hx)) with ⟨v, hv⟩
          cases hv
      | ok v =>
        rw [hp] at ih
        constructor
        · intro _ x hx
          rcases List.mem_cons.mp hx with hx | hx
          · subst hx; rw [hpl]; intro hc; cases hc
          · exact ih.mp ⟨v, rfl⟩ x hx
        · intro _; exact ⟨none :: v, rfl⟩
    | ok r =>
      simp only [toExceptRecord]
      cases hp : parseAll ls with
      | error e =>
        rw [hp] at ih
        constructor
        · rintro ⟨v, hv⟩; cases hv
        · intro h
          rcases ih.mpr (fun x hx => h x (List.mem_cons_of_mem _ hx)) with ⟨v, hv⟩
          cases hv
      | ok v =>
        rw [hp] at ih
        constructor
        · intro _ x hx
          rcases List.mem_cons.mp hx with hx | hx
          · subst hx; rw [hpl]; intro hc; cases hc
          · exact ih.mp ⟨v, rfl⟩ x hx
        · intro _; exact ⟨some r :: v, rfl⟩

/-- **C2 (amended)** — The run of `main` completes exactly when no input
line raises inside `parseline`; structurally malformed lines (too few
tokens, no grammar match, zero address) are silently skipped via `None`,
but a failed numeric conversion or a missing user-agent token raises an
exception that aborts the whole run. -/
theorem C2_run_aborts_iff_some_line_raises (oracle : String → Option Int)
    (lines : List String) :
    exceptOk (runMain oracle lines) = true ↔
      ∀ l ∈ lines, parseline l ≠ ParseResult.error := by
  rw [← parseAll_ok_iff]
  unfold runMain
  cases hp : parseAll lines with
  | error e =>
    simp only [exceptOk]
    constructor
    · intro h; cases h
    · rintro ⟨v, hv⟩; cases hv
  | ok v =>
    simp only [exceptOk]
    constructor
    · intro _; exact ⟨v, rfl⟩
    · intro _; trivial

/-! ## Collision filter: the histogram in first-insertion key order -/

theorem keysOf_append (zmg : List Record) (r : Record) :
    keysOf (zmg ++ [r])
      = if (keysOf zmg).any (fun k => k == r.sortkey) then keysOf zmg
        else keysOf zmg ++ [r.sortkey] := by
  unfold keysOf
  rw [List.foldl_append]
  rfl

theorem mem_keysOf (zmg : List Record) (k : SortKey) :
    k ∈ keysOf zmg ↔ ∃ x ∈ zmg, x.sortkey = k := by
  induction zmg using List.reverseRecOn with
  | nil => simp [keysOf]
  | append_singleton pre r ih =>
    rw [keysOf_append]
    by_cases hc : (keysOf pre).any (fun k => k == r.sortkey)
    · rw [if_pos hc]
      rcases (by simpa using hc : ∃ x ∈ keysOf pre, x = r.sortkey) with ⟨x, hx, he⟩
      subst he
      constructor
      · intro h; rcases ih.mp h with ⟨y, hy, he⟩; exact ⟨y, by simp [hy], he⟩
      · rintro ⟨y, hy, he⟩
        rcases (by simpa using hy : y ∈ pre ∨ y = r) with hy | hy
        · exact ih.mpr ⟨y, hy, he⟩
        · subst hy; rw [← he]; exact hx
    · rw [if_neg hc]
      simp only [List.mem_append, List.mem_singleton, ih]
      constructor
      · rintro (⟨y, hy, he⟩ | he)
        · exact ⟨y, by simp [hy], he⟩
        · exact ⟨r, by simp, he.symm⟩
      · rintro ⟨y, hy, he⟩
        rcases (by simpa using hy : y ∈ pre ∨ y = r) with hy | hy
        · exact Or.inl ⟨y, hy, he⟩
        · subst hy; exact Or.inr he.symm

/-- `any` over a mapped list (general version for a type-changing map). -/
theorem any_map_general {α β : Type} (l : List α) (f : α → β) (p : β → Bool) :
    (l.map f).any p = l.any (p ∘ f) := by
  induction l with
  | nil => rfl
  | cons a l ih => simp [List.any_cons, ih]

theorem hist_eq (zmg : List Record) :
    zmg.foldl histAdd []
      = (keysOf zmg).map (fun k => (k, zmg.filter (fun x => x.sortkey == k))) := by
  induction zmg using List.reverseRecOn with
  | nil => rfl
  | append_singleton pre r ih =>
    rw [List.foldl_append, List.foldl_cons, List.foldl_nil, ih, keysOf_append]
    unfold histAdd
    rw [any_map_general]
    have hcomp :
        ((fun kv : SortKey × List Record => kv.1 == r.sortkey) ∘
          fun k => (k, pre.filter (fun x => x.sortkey == k)))
          = fun k => k == r.sortkey := rfl
    rw [hcomp]
    by_cases hc : (keysOf pre).any (fun k => k == r.sortkey)
    · rw [if_pos hc, if_pos hc, List.map_map]
      apply List.map_congr_left
      intro k hk
      simp only [Function.comp_apply]
      by_cases hkr : k = r.sortkey
      · subst hkr
        simp [List.filter_append]
      · have h1 : (k == r.sortkey) = false := by simpa using hkr
        have h2 : (r.sortkey == k) = false := by simpa using Ne.symm hkr
        simp [h1, List.filter_append, h2]
    · rw [if_neg hc, if_neg hc, List.map_append]
      have hnom : ∀ k ∈ keysOf pre, k ≠ r.sortkey := by
        intro k hk he
        exact hc (List.any_eq_true.mpr ⟨k, hk, by simpa using he⟩)
      have hnopre : pre.filter (fun x => x.sortkey == r.sortkey) = [] := by
        rw [List.filter_eq_nil_iff]
        intro x hx hpx
        have : r.sortkey ∈ keysOf pre :=
          (mem_keysOf pre r.sortkey).mpr ⟨x, hx, by simpa using hpx⟩
        exact hnom _ this rfl
      congr 1
      · apply List.map_congr_left
        intro k hk
        have h2 : (r.sortkey == k) = false := by
          simpa using Ne.symm (hnom k hk)
        simp [List.filter_append, h2]
      · simp [List.filter_append, hnopre]

/-- Pushing a key-level filter through the head-selection map, when the
selected element's key is the key it was selected for. -/
theorem filter_map_comm {κ α : Type} (l : List κ) (f : κ → α) (p : α → Bool)
    (g : κ → Bool) (h : ∀ k ∈ l, p (f k) = g k) :
    (l.filter g).map f = (l.map f).filter p := by
  induction l with
  | nil => rfl
  | cons a l ih =>
    simp only [List.filter_cons, List.map_cons]
    rw [← h a (by simp)]
    by_cases hp : p (f a)
    · simp [hp, ih (fun k hk => h k (by simp [hk]))]
    · simp [hp, ih (fun k hk => h k (by simp [hk]))]

/-- When a key's group has size one, the group's head carries that key. -/
theorem headI_key_of_single (l : List Record) (k : SortKey)
    (h : ((l.filter (fun x => x.sortkey == k)).length == 1) = true) :
    (l.filter (fun x => x.sortkey == k)).headI.sortkey = k := by
  rcases List.length_eq_one.mp (by simpa using h) with ⟨v, hv⟩
  have hvmem : v ∈ l.filter (fun x => x.sortkey == k) := by
    rw [hv]; exact List.mem_singleton_self v
  have hk := (List.mem_filter.mp hvmem).2
  rw [hv]
  simpa using hk

/-- The collision filter keeps exactly the records whose sort key occurs
exactly once, in input order. -/
theorem filtermultiport_eq_filter (zmg : List Record) :
    filtermultiport zmg
      = zmg.filter
          (fun r => (zmg.filter (fun x => x.sortkey == r.sortkey)).length == 1) := by
  induction zmg using List.reverseRecOn with
  | nil => rfl
  | append_singleton pre r ih =>
    unfold filtermultiport at ih ⊢
    rw [hist_eq] at ih ⊢
    rw [List.filter_map, List.map_map] at ih ⊢
    simp only [Function.comp_def] at ih ⊢
    by_cases hc : r.sortkey ∈ keysOf pre
    · -- the key of `r` was seen before: its group grows beyond size one
      have hcount : 1 ≤ (pre.filter (fun x => x.sortkey == r.sortkey)).length := by
        rcases (mem_keysOf pre r.sortkey).mp hc with ⟨x, hx, he⟩
        have : x ∈ pre.filter (fun x => x.sortkey == r.sortkey) :=
          List.mem_filter.mpr ⟨hx, by simpa using he⟩
        exact List.length_pos.mpr (List.ne_nil_of_mem this)
      have hanyc : ((keysOf pre).any (fun k => k == r.sortkey)) = true := by
        simpa using hc
      rw [keysOf_append, if_pos hanyc]
      -- group sizes in `pre ++ [r]`
      have hgrow : ∀ k : SortKey,
          (pre ++ [r]).filter (fun x => x.sortkey == k)
            = pre.filter (fun x => x.sortkey == k)
              ++ (if r.sortkey = k then [r] else []) := by
        intro k
        rw [List.filter_append]
        by_cases hk : r.sortkey = k
        · simp [hk]
        · simp [hk]
      have hPkey : (((pre ++ [r]).filter
          (fun x => x.sortkey == r.sortkey)).length == 1) = false := by
        rw [hgrow, if_pos rfl, beq_eq_false_iff_ne]
        simp only [List.length_append, List.length_cons, List.length_nil]
        omega
      -- left side: restrict to old keys other than the key of `r`
      have hKfilter : (keysOf pre).filter
            (fun k => ((pre ++ [r]).filter (fun x => x.sortkey == k)).length == 1)
          = ((keysOf pre).filter
              (fun k => (pre.filter (fun x => x.sortkey == k)).length == 1)).filter
                (fun k => !(k == r.sortkey)) := by
        rw [List.filter_filter]
        apply List.filter_congr
        intro k hk
        by_cases hkr : k = r.sortkey
        · subst hkr
          rw [hPkey]
          simp
        · rw [hgrow]
          simp [Ne.symm hkr, hkr]
      rw [hKfilter]
      have hHeq : ∀ k ∈ ((keysOf pre).filter
            (fun k => (pre.filter (fun x => x.sortkey == k)).length == 1)).filter
              (fun k => !(k == r.sortkey)),
          ((pre ++ [r]).filter (fun x => x.sortkey == k)).headI
            = (pre.filter (fun x => x.sortkey == k)).headI := by
        intro k hk
        have hkr : ¬(k = r.sortkey) := by
          have := (List.mem_filter.mp hk).2
          simpa using this
        rw [hgrow, if_neg (fun he => hkr he.symm), List.append_nil]
      rw [List.map_congr_left hHeq]
      -- now push the key filter through the map and use the hypothesis
      have hpush : (((keysOf pre).filter
            (fun k => (pre.filter (fun x => x.sortkey == k)).length == 1)).filter
              (fun k => !(k == r.sortkey))).map
                (fun k => (pre.filter (fun x => x.sortkey == k)).headI)
          = (((keysOf pre).filter
              (fun k => (pre.filter (fun x => x.sortkey == k)).length == 1)).map
                (fun k => (pre.filter (fun x => x.sortkey == k)).headI)).filter
                  (fun v => !(v.sortkey == r.sortkey)) := by
        apply filter_map_comm
        intro k hk
        have hsingle := (List.mem_filter.mp hk).2
        rw [headI_key_of_single pre k hsingle]
      rw [hpush, ih, List.filter_filter]
      -- right side
      rw [List.filter_append]
      have hRsingleton : [r].filter
          (fun x => ((pre ++ [r]).filter (fun y => y.sortkey == x.sortkey)).length == 1)
            = [] := by
        simp only [List.filter_cons, List.filter_nil]
        rw [hPkey]
        simp
      rw [hRsingleton, List.append_nil]
      symm
      apply List.filter_congr
      intro x hx
      by_cases hxr : x.sortkey = r.sortkey
      · rw [hxr, hPkey]
        simp
      · rw [hgrow]
        have h1 : (x.sortkey == r.sortkey) = false := by simpa using hxr
        have h2 : ¬(r.sortkey = x.sortkey) := Ne.symm hxr
        simp [h2, h1]
    · -- the key of `r` is new: its singleton group is appended at the end
      have hanyc : ((keysOf pre).any (fun k => k == r.sortkey)) = false := by
        rw [Bool.eq_false_iff]
        intro hany
        exact hc (by simpa using hany)
      have hnopre : pre.filter (fun x => x.sortkey == r.sortkey) = [] := by
        rw [List.filter_eq_nil_iff]
        intro x hx hpx
        exact hc ((mem_keysOf pre r.sortkey).mpr ⟨x, hx, by simpa using hpx⟩)
      have hgrow : ∀ k : SortKey,
          (pre ++ [r]).filter (fun x => x.sortkey == k)
            = pre.filter (fun x => x.sortkey == k)
              ++ (if r.sortkey = k then [r] else []) := by
        intro k
        rw [List.filter_append]
        by_cases hk : r.sortkey = k
        · simp [hk]
        · simp [hk]
      have hPr : (((pre ++ [r]).filter
          (fun x => x.sortkey == r.sortkey)).length == 1) = true := by
        rw [hgrow, hnopre]
        simp
      rw [keysOf_append, hanyc]
      simp only [Bool.false_eq_true, if_false]
      rw [List.filter_append, List.map_append]
      -- old keys keep their groups
      have hK1 : (keysOf pre).filter
            (fun k => ((pre ++ [r]).filter (fun x => x.sortkey == k)).length == 1)
          = (keysOf pre).filter
              (fun k => (pre.filter (fun x => x.sortkey == k)).length == 1) := by
        apply List.filter_congr
        intro k hk
        have hkr : ¬(r.sortkey = k) := fun he => hc (he ▸ hk)
        rw [hgrow]
        simp [hkr]
      rw [hK1]
      have hH1 : ∀ k ∈ (keysOf pre).filter
            (fun k => (pre.filter (fun x => x.sortkey == k)).length == 1),
          ((pre ++ [r]).filter (fun x => x.sortkey == k)).headI
            = (pre.filter (fun x => x.sortkey == k)).headI := by
        intro k hk
        have hkr : ¬(r.sortkey = k) :=
          fun he => hc (he ▸ (List.mem_filter.mp hk).1)
        rw [hgrow]
        simp [hkr]
      rw [List.map_congr_left hH1, ih]
      -- the new key contributes exactly the record `r`
      have hK2 : ([r.sortkey].filter
            (fun k => ((pre ++ [r]).filter (fun x => x.sortkey == k)).length == 1)).map
              (fun k => ((pre ++ [r]).filter (fun x => x.sortkey == k)).headI)
          = [r] := by
        simp only [List.filter_cons, List.filter_nil]
        rw [hPr]
        simp only [if_pos, List.map_cons, List.map_nil]
        rw [hgrow, hnopre]
        simp
      rw [hK2]
      -- the record side
      rw [List.filter_append]
      have hR2 : [r].filter
          (fun x => ((pre ++ [r]).filter (fun y => y.sortkey == x.sortkey)).length == 1)
            = [r] := by
        simp only [List.filter_cons, List.filter_nil]
        rw [hPr]
        simp
      rw [hR2]
      congr 1
      symm
      apply List.filter_congr
      intro x hx
      have hxr : ¬(x.sortkey = r.sortkey) := by
        intro he
        have : x ∈ pre.filter (fun y => y.sortkey == r.sortkey) :=
          List.mem_filter.mpr ⟨hx, by simpa using he⟩
        rw [hnopre] at this
        cases this
      rw [hgrow]
      have h2 : ¬(r.sortkey = x.sortkey) := Ne.symm hxr
      simp [h2]

/-- A list in which every element's key-mates number at most one is
pairwise key-distinct. -/
theorem pairwise_ne_of_count_le_one (l : List Record)
    (h : ∀ r ∈ l, (l.filter (fun x => x.sortkey == r.sortkey)).length ≤ 1) :
    l.Pairwise (fun a b => a.sortkey ≠ b.sortkey) := by
  induction l with
  | nil => exact List.Pairwise.nil
  | cons a l ih =>
    constructor
    · intro b hb he
      have ha := h a (by simp)
      simp only [List.filter_cons, beq_self_eq_true, if_pos, List.length_cons] at ha
      have hbmem : b ∈ l.filter (fun x => x.sortkey == a.sortkey) :=
        List.mem_filter.mpr ⟨hb, by simpa using he.symm⟩
      have : 1 ≤ (l.filter (fun x => x.sortkey == a.sortkey)).length :=
        List.length_pos.mpr (List.ne_nil_of_mem hbmem)
      omega
    · apply ih
      intro r hr
      have hcount := h r (by simp [hr])
      have : (l.filter (fun x => x.sortkey == r.sortkey)).length
          ≤ ((a :: l).filter (fun x => x.sortkey == r.sortkey)).length := by
        rw [List.filter_cons]
        by_cases hpa : (a.sortkey == r.sortkey) = true
        · rw [if_pos hpa]; simp
        · rw [if_neg hpa]
      omega

/-- **C4** — The collision filter retains exactly the records whose sort
key is unique in its input: membership in its output is membership in the
input together with the input-wide key count being one, and the output has
pairwise distinct sort keys. -/
theorem C4_collision_filter_unique_keys (zmg : List Record) (r : Record) :
    (r ∈ filtermultiport zmg ↔
      r ∈ zmg ∧ (zmg.filter (fun x => x.sortkey == r.sortkey)).length = 1) ∧
    (filtermultiport zmg).Pairwise (fun a b => a.sortkey ≠ b.sortkey) := by
  constructor
  · rw [filtermultiport_eq_filter, List.mem_filter]
    simp
  · rw [filtermultiport_eq_filter]
    apply pairwise_ne_of_count_le_one
    intro x hx
    have hsub : ((zmg.filter
          (fun s => (zmg.filter (fun y => y.sortkey == s.sortkey)).length == 1)).filter
            (fun y => y.sortkey == x.sortkey)).Sublist
          (zmg.filter (fun y => y.sortkey == x.sortkey)) := by
      rw [List.filter_filter]
      have : zmg.filter (fun a =>
            (a.sortkey == x.sortkey)
              && ((zmg.filter (fun y => y.sortkey == a.sortkey)).length == 1))
          = (zmg.filter (fun y => y.sortkey == x.sortkey)).filter
              (fun a => (zmg.filter (fun y => y.sortkey == a.sortkey)).length == 1) := by
        rw [List.filter_filter]
        apply List.filter_congr
        intro a _
        exact Bool.and_comm _ _
      rw [this]
      exact List.filter_sublist _
    have hle := hsub.length_le
    have hx1 : (zmg.filter (fun y => y.sortkey == x.sortkey)).length = 1 := by
      have := (List.mem_filter.mp hx).2
      simpa using this
    omega

/-! ## Sort comparators: totality and transitivity -/

theorem key1Le_total (a b : Record) : (key1Le a b || key1Le b a) = true := by
  simp only [key1Le, Bool.or_eq_true, Bool.and_eq_true, decide_eq_true_eq]
  rcases lt_trichotomy a.uptime b.uptime with h | h | h
  · exact Or.inl (Or.inl h)
  · rcases lt_trichotomy a.lastsuccess b.lastsuccess with h2 | h2 | h2
    · exact Or.inl (Or.inr ⟨h, Or.inl h2⟩)
    · rcases le_total a.ip b.ip with h3 | h3
      · exact Or.inl (Or.inr ⟨h, Or.inr ⟨h2, h3⟩⟩)
      · exact Or.inr (Or.inr ⟨h.symm, Or.inr ⟨h2.symm, h3⟩⟩)
    · exact Or.inr (Or.inr ⟨h.symm, Or.inl h2⟩)
  · exact Or.inr (Or.inl h)

theorem key1Le_trans (a b c : Record) (h1 : key1Le a b = true)
    (h2 : key1Le b c = true) : key1Le a c = true := by
  simp only [key1Le, Bool.or_eq_true, Bool.and_eq_true, decide_eq_true_eq] at h1 h2 ⊢
  rcases h1 with h1 | ⟨e1, h1⟩
  · rcases h2 with h2 | ⟨e2, _⟩
    · exact Or.inl (lt_trans h1 h2)
    · exact Or.inl (by rw [← e2]; exact h1)
  · rcases h2 with h2 | ⟨e2, h2⟩
    · exact Or.inl (by rw [e1]; exact h2)
    · refine Or.inr ⟨e1.trans e2, ?_⟩
      rcases h1 with h1 | ⟨f1, h1⟩
      · rcases h2 with h2 | ⟨f2, _⟩
        · exact Or.inl (lt_trans h1 h2)
        · exact Or.inl (by rw [← f2]; exact h1)
      · rcases h2 with h2 | ⟨f2, h2⟩
        · exact Or.inl (by rw [f1]; exact h2)
        · exact Or.inr ⟨f1.trans f2, le_trans h1 h2⟩

theorem skLe_total (x y : SortKey) : (skLe x y || skLe y x) = true := by
  cases x <;> cases y <;> simp [skLe] <;> first
    | exact Nat.le_total _ _
    | exact le_total _ _

theorem skLe_trans (x y z : SortKey) (h1 : skLe x y = true)
    (h2 : skLe y z = true) : skLe x z = true := by
  cases x <;> cases y <;> cases z <;> simp [skLe] at h1 h2 ⊢ <;>
    exact le_trans h1 h2

theorem key2Le_total (a b : Record) : (key2Le a b || key2Le b a) = true := by
  simp only [key2Le, Bool.or_eq_true, Bool.and_eq_true, decide_eq_true_eq]
  rcases lt_trichotomy (netStr a.net) (netStr b.net) with h | h | h
  · exact Or.inl (Or.inl h)
  · rcases (by simpa using skLe_total a.sortkey b.sortkey :
        skLe a.sortkey b.sortkey = true ∨ skLe b.sortkey a.sortkey = true) with h2 | h2
    · exact Or.inl (Or.inr ⟨h, h2⟩)
    · exact Or.inr (Or.inr ⟨h.symm, h2⟩)
  · exact Or.inr (Or.inl h)

theorem key2Le_trans (a b c : Record) (h1 : key2Le a b = true)
    (h2 : key2Le b c = true) : key2Le a c = true := by
  simp only [key2Le, Bool.or_eq_true, Bool.and_eq_true, decide_eq_true_eq] at h1 h2 ⊢
  rcases h1 with h1 | ⟨e1, h1⟩
  · rcases h2 with h2 | ⟨e2, _⟩
    · exact Or.inl (lt_trans h1 h2)
    · exact Or.inl (by rw [← e2]; exact h1)
  · rcases h2 with h2 | ⟨e2, h2⟩
    · exact Or.inl (by rw [e1]; exact h2)
    · exact Or.inr ⟨e1.trans e2, skLe_trans _ _ _ h1 h2⟩

/-- **C7** — The collision filter's output is a subsequence of its input
(it preserves relative order), and the IPv4 records entering the
origin-diversity filter after the pre-diversity descending sort are still
pairwise in descending `(uptime, lastsuccess, ip)` order. -/
theorem C7_collision_filter_preserves_order (zmg : List Record) :
    (filtermultiport zmg).Sublist zmg ∧
    ((filtermultiport (sort1 zmg)).filter (fun r => r.net == Net.ipv4)).Pairwise
      (fun a b => key1Le b a = true) := by
  constructor
  · rw [filtermultiport_eq_filter]
    exact List.filter_sublist zmg
  · have hsorted : (sort1 zmg).Pairwise (fun a b => key1Le b a = true) := by
      have := @List.sorted_mergeSort Record (fun a b => key1Le b a)
        (fun a b c hab hbc => key1Le_trans c b a hbc hab)
        (fun a b => by
          have := key1Le_total b a
          simpa [Bool.or_comm] using this)
        zmg
      exact this
    have h1 : (filtermultiport (sort1 zmg)).Pairwise (fun a b => key1Le b a = true) := by
      apply List.Pairwise.sublist _ hsorted
      rw [filtermultiport_eq_filter]
      exact List.filter_sublist _
    exact List.Pairwise.sublist (List.filter_sublist _) h1

/-! ## Membership through the pipeline stages -/

/-- Everything in the accepted list of the ASN loop came from the initial
accepted list or the processed records. -/
theorem filterbyasnGo_mem (oracle : String → Option Int) (m t : Nat) :
    ∀ (l res : List Record) (counts : Int → Nat) (errs : List String)
      (r : Record), r ∈ (filterbyasnGo oracle m t l res counts errs).1 →
      r ∈ res ∨ r ∈ l := by
  intro l
  induction l with
  | nil =>
    intro res counts errs r h
    exact Or.inl (by simpa [filterbyasnGo] using h)
  | cons ip rest ih =>
    intro res counts errs r h
    unfold filterbyasnGo at h
    by_cases hlen : res.length = t
    · rw [if_pos hlen] at h
      exact Or.inl h
    · rw [if_neg hlen] at h
      cases ho : oracle ip.ip with
      | none =>
        rw [ho] at h
        rcases ih _ _ _ r h with h | h
        · exact Or.inl h
        · exact Or.inr (List.mem_cons_of_mem _ h)
      | some asn =>
        simp only [ho] at h
        by_cases hcnt : counts asn = m
        · rw [if_pos hcnt] at h
          rcases ih _ _ _ r h with h | h
          · exact Or.inl h
          · exact Or.inr (List.mem_cons_of_mem _ h)
        · rw [if_neg hcnt] at h
          rcases ih _ _ _ r h with h | h
          · rcases List.mem_append.mp h with h | h
            · exact Or.inl h
            · exact Or.inr (by simpa using Or.inl (List.mem_singleton.mp h))
          · exact Or.inr (List.mem_cons_of_mem _ h)

/-- The origin-diversity filter only keeps records of its input. -/
theorem mem_of_mem_filterbyasn (oracle : String → Option Int) (m t : Nat)
    (zmg : List Record) (r : Record)
    (h : r ∈ (filterbyasn oracle m t zmg).1) : r ∈ zmg := by
  unfold filterbyasn at h
  simp only at h
  rcases List.mem_append.mp h with h | h
  · rcases List.mem_append.mp h with h | h
    · rcases filterbyasnGo_mem oracle m t _ _ _ _ r h with h | h
      · cases h
      · exact (List.mem_filter.mp h).1
    · exact (List.mem_filter.mp h).1
  · exact (List.mem_filter.mp h).1

/-- **C3** — Every record surviving the quality filter (and hence every
record surviving the full later pipeline, whose stages only remove
records) advertises service bit 1, has uptime strictly above 50 (so a
record with uptime exactly 50 is excluded), has at least the configured
minimum block height, is not on the deny-list, and its user agent with
spaces replaced by hyphens matches the acceptance pattern. -/
theorem C3_quality_invariants (zmg : List Record) (oracle : String → Option Int)
    (r : Record)
    (h : r ∈ qualityFilter zmg ∨
      r ∈ (filterbyasn oracle MAX_SEEDS_PER_ASN NSEEDS
            (filtermultiport (sort1 (qualityFilter zmg)))).1) :
    Int.land r.service 1 = 1 ∧ (50 : ℚ) < r.uptime ∧ MIN_BLOCKS ≤ r.blocks ∧
      SUSPICIOUS_HOSTS.contains r.ip = false ∧
      matchAgent (spaceToHyphen r.agent) = true ∧ r.uptime ≠ 50 := by
  have hq : r ∈ qualityFilter zmg := by
    rcases h with h | h
    · exact h
    · have h1 := mem_of_mem_filterbyasn _ _ _ _ _ h
      rw [filtermultiport_eq_filter] at h1
      have h2 := (List.mem_filter.mp h1).1
      exact List.mem_mergeSort.mp h2
  unfold qualityFilter at hq
  have h5 := List.mem_filter.mp hq
  have h4 := List.mem_filter.mp h5.1
  have h3 := List.mem_filter.mp h4.1
  have h2 := List.mem_filter.mp h3.1
  have h1 := List.mem_filter.mp h2.1
  have hup : (50 : ℚ) < r.uptime := by simpa using h4.2
  refine ⟨by simpa using h3.2, hup, by simpa using h2.2,
    by simpa using h1.2, h5.2, ne_of_gt hup⟩

/-- Witness for C3 at a concrete good record. -/
theorem C3_quality_invariants_witness :
    (sample4 ∈ qualityFilter [sample4] ∨
      sample4 ∈ (filterbyasn (fun _ => some 7) MAX_SEEDS_PER_ASN NSEEDS
        (filtermultiport (sort1 (qualityFilter [sample4])))).1) ∧
    (Int.land sample4.service 1 = 1 ∧ (50 : ℚ) < sample4.uptime ∧
      MIN_BLOCKS ≤ sample4.blocks ∧
      SUSPICIOUS_HOSTS.contains sample4.ip = false ∧
      matchAgent (spaceToHyphen sample4.agent) = true ∧ sample4.uptime ≠ 50) :=
  ⟨Or.inl (by decide),
    C3_quality_invariants [sample4] (fun _ => some 7) sample4 (Or.inl (by decide))⟩

/-! ## The origin-diversity loop invariants -/

/-- The accept loop on an empty list returns its accumulators. -/
theorem filterbyasnGo_nil (oracle : String → Option Int) (m t : Nat)
    (res : List Record) (counts : Int → Nat) (errs : List String) :
    filterbyasnGo oracle m t [] res counts errs = (res, errs) := rfl

/-- The unfolding equation of the accept loop on a nonempty list. -/
theorem filterbyasnGo_cons (oracle : String → Option Int) (m t : Nat)
    (ip : Record) (rest res : List Record) (counts : Int → Nat)
    (errs : List String) :
    filterbyasnGo oracle m t (ip :: rest) res counts errs
      = if res.length = t then (res, errs)
        else
          match oracle ip.ip with
          | none => filterbyasnGo oracle m t rest res counts
              (errs ++ [asnErrMsg ip.ip])
          | some asn =>
            if counts asn = m then filterbyasnGo oracle m t rest res counts errs
            else filterbyasnGo oracle m t rest (res ++ [ip])
              (fun a => if a = asn then counts a + 1 else counts a) errs := rfl

/-- Reaching the global maximum stops the loop. -/
theorem filterbyasnGo_cons_full (oracle : String → Option Int) (m t : Nat)
    (ip : Record) (rest res : List Record) (counts : Int → Nat)
    (errs : List String) (h : res.length = t) :
    filterbyasnGo oracle m t (ip :: rest) res counts errs = (res, errs) := by
  rw [filterbyasnGo_cons, if_pos h]

/-- A failed lookup logs the diagnostic and continues unchanged. -/
theorem filterbyasnGo_cons_none (oracle : String → Option Int) (m t : Nat)
    (ip : Record) (rest res : List Record) (counts : Int → Nat)
    (errs : List String) (h1 : res.length ≠ t) (h2 : oracle ip.ip = none) :
    filterbyasnGo oracle m t (ip :: rest) res counts errs
      = filterbyasnGo oracle m t rest res counts (errs ++ [asnErrMsg ip.ip]) := by
  rw [filterbyasnGo_cons, if_neg h1, h2]

/-- A record whose ASN already reached the cap is skipped. -/
theorem filterbyasnGo_cons_skip (oracle : String → Option Int) (m t : Nat)
    (ip : Record) (rest res : List Record) (counts : Int → Nat)
    (errs : List String) (asn : Int) (h1 : res.length ≠ t)
    (h2 : oracle ip.ip = some asn) (h3 : counts asn = m) :
    filterbyasnGo oracle m t (ip :: rest) res counts errs
      = filterbyasnGo oracle m t rest res counts errs := by
  rw [filterbyasnGo_cons, if_neg h1, h2]
  exact if_pos h3

/-- A record below both caps is accepted and its counter bumped. -/
theorem filterbyasnGo_cons_accept (oracle : String → Option Int) (m t : Nat)
    (ip : Record) (rest res : List Record) (counts : Int → Nat)
    (errs : List String) (asn : Int) (h1 : res.length ≠ t)
    (h2 : oracle ip.ip = some asn) (h3 : counts asn ≠ m) :
    filterbyasnGo oracle m t (ip :: rest) res counts errs
      = filterbyasnGo oracle m t rest (res ++ [ip])
          (fun a => if a = asn then counts a + 1 else counts a) errs := by
  rw [filterbyasnGo_cons, if_neg h1, h2]
  exact if_neg h3

/-- Invariants of the `filterbyasn` accept loop: if the per-ASN counter
agrees with the accepted list and respects the caps, then the final
accepted list respects the per-ASN cap and the global cap, and every
accepted record was already accepted or is a processed record whose
lookup succeeded. -/
theorem filterbyasnGo_spec (oracle : String → Option Int) (m t : Nat) :
    ∀ (l res : List Record) (counts : Int → Nat) (errs : List String),
      (∀ asn : Int, counts asn
        = (res.filter (fun x => oracle x.ip == some asn)).length) →
      (∀ asn : Int, counts asn ≤ m) →
      res.length ≤ t →
      (∀ asn : Int, (((filterbyasnGo oracle m t l res counts errs).1).filter
          (fun x => oracle x.ip == some asn)).length ≤ m) ∧
      (filterbyasnGo oracle m t l res counts errs).1.length ≤ t ∧
      (∀ x ∈ (filterbyasnGo oracle m t l res counts errs).1,
          x ∈ res ∨ (x ∈ l ∧ ∃ a, oracle x.ip = some a)) := by
  intro l
  induction l with
  | nil =>
    intro res counts errs hcnt hbound hlen
    refine ⟨fun asn => ?_, hlen,
      fun x hx => Or.inl (by simpa [filterbyasnGo] using hx)⟩
    simp only [filterbyasnGo]
    rw [← hcnt asn]
    exact hbound asn
  | cons ip rest ih =>
    intro res counts errs hcnt hbound hlen
    by_cases hfull : res.length = t
    · rw [filterbyasnGo_cons_full oracle m t ip rest res counts errs hfull]
      refine ⟨fun asn => ?_, hlen, fun x hx => Or.inl hx⟩
      rw [← hcnt asn]
      exact hbound asn
    · cases ho : oracle ip.ip with
      | none =>
        rw [filterbyasnGo_cons_none oracle m t ip rest res counts errs hfull ho]
        rcases ih res counts (errs ++ [asnErrMsg ip.ip]) hcnt hbound hlen with
          ⟨hA, hB, hC⟩
        refine ⟨hA, hB, fun x hx => ?_⟩
        rcases hC x hx with h | ⟨hm1, hm2⟩
        · exact Or.inl h
        · exact Or.inr ⟨List.mem_cons_of_mem _ hm1, hm2⟩
      | some asn =>
        by_cases hmax : counts asn = m
        · rw [filterbyasnGo_cons_skip oracle m t ip rest res counts errs asn
            hfull ho hmax]
          rcases ih res counts errs hcnt hbound hlen with ⟨hA, hB, hC⟩
          refine ⟨hA, hB, fun x hx => ?_⟩
          rcases hC x hx with h | ⟨hm1, hm2⟩
          · exact Or.inl h
          · exact Or.inr ⟨List.mem_cons_of_mem _ hm1, hm2⟩
        · rw [filterbyasnGo_cons_accept oracle m t ip rest res counts errs asn
            hfull ho hmax]
          have hcnt2 : ∀ a : Int,
              (if a = asn then counts a + 1 else counts a)
                = ((res ++ [ip]).filter (fun x => oracle x.ip == some a)).length := by
            intro a
            rw [List.filter_append]
            by_cases ha : a = asn
            · subst ha
              simp [List.filter_cons, ho, hcnt a]
            · have hfalse : ((oracle ip.ip == some a)) = false := by
                rw [ho]
                simpa using fun he => ha he.symm
              simp [List.filter_cons, hfalse, ha, hcnt a]
          have hbound2 : ∀ a : Int,
              (if a = asn then counts a + 1 else counts a) ≤ m := by
            intro a
            by_cases ha : a = asn
            · subst ha
              rw [if_pos rfl]
              have hb := hbound a
              omega
            · rw [if_neg ha]
              exact hbound a
          have hlen2 : (res ++ [ip]).length ≤ t := by
            rw [List.length_append]
            simp only [List.length_cons, List.length_nil]
            omega
          rcases ih (res ++ [ip]) _ errs hcnt2 hbound2 hlen2 with ⟨hA, hB, hC⟩
          refine ⟨hA, hB, fun x hx => ?_⟩
          rcases hC x hx with h | ⟨hm1, hm2⟩
          · rcases List.mem_append.mp h with h | h
            · exact Or.inl h
            · have hxi : x = ip := List.mem_singleton.mp h
              subst hxi
              exact Or.inr ⟨List.mem_cons_self _ _, asn, ho⟩
          · exact Or.inr ⟨List.mem_cons_of_mem _ hm1, hm2⟩

/-- A filter over a replicated list where the predicate fails. -/
theorem filter_replicate_false {α : Type} (p : α → Bool) (a : α)
    (h : p a = false) (n : Nat) : (List.replicate n a).filter p = [] := by
  induction n with
  | zero => rfl
  | succ n ih => simp [List.replicate_succ, List.filter_cons, h, ih]

/-- A filter over a replicated list where the predicate holds. -/
theorem filter_replicate_true {α : Type} (p : α → Bool) (a : α)
    (h : p a = true) (n : Nat) :
    (List.replicate n a).filter p = List.replicate n a := by
  induction n with
  | zero => rfl
  | succ n ih => simp [List.replicate_succ, List.filter_cons, h, ih]

/-- **C1** — With the configured caps (`MAX_SEEDS_PER_ASN = 2`,
`NSEEDS = 512`), the origin-diversity filter accepts at most 2 IPv4
records resolving to any one ASN and at most 512 IPv4 records in total;
every IPv6 and onion record of the input passes through unconditionally;
and since the global cap binds only the IPv4 subset, a combined result
longer than 512 is attainable (witnessed by an all-IPv6 input). -/
theorem C1_origin_diversity_caps (oracle : String → Option Int)
    (zmg : List Record) (asn : Int) (r : Record) (hr : r ∈ zmg) :
    ((filterbyasn oracle MAX_SEEDS_PER_ASN NSEEDS zmg).1.filter
        (fun x => x.net == Net.ipv4 && oracle x.ip == some asn)).length
      ≤ MAX_SEEDS_PER_ASN ∧
    ((filterbyasn oracle MAX_SEEDS_PER_ASN NSEEDS zmg).1.filter
        (fun x => x.net == Net.ipv4)).length ≤ NSEEDS ∧
    ((r.net = Net.ipv6 ∨ r.net = Net.onion) →
      r ∈ (filterbyasn oracle MAX_SEEDS_PER_ASN NSEEDS zmg).1) ∧
    (∃ (oracle2 : String → Option Int) (zmg2 : List Record),
      NSEEDS < (filterbyasn oracle2 MAX_SEEDS_PER_ASN NSEEDS zmg2).1.length) := by
  rcases filterbyasnGo_spec oracle MAX_SEEDS_PER_ASN NSEEDS
      (zmg.filter (fun ip => ip.net == Net.ipv4)) [] (fun _ => 0) []
      (fun _ => rfl) (fun _ => Nat.zero_le _) (Nat.zero_le _) with ⟨hA, hB, hC⟩
  have hmem4 : ∀ x ∈ (filterbyasnGo oracle MAX_SEEDS_PER_ASN NSEEDS
      (zmg.filter (fun ip => ip.net == Net.ipv4)) [] (fun _ => 0) []).1,
      (x.net == Net.ipv4) = true := by
    intro x hx
    rcases hC x hx with h | ⟨h1, _⟩
    · cases h
    · exact (List.mem_filter.mp h1).2
  refine ⟨?_, ?_, ?_, ?_⟩
  · unfold filterbyasn
    simp only [List.filter_append, List.length_append]
    have h6 : (zmg.filter (fun ip => ip.net == Net.ipv6)).filter
        (fun x => x.net == Net.ipv4 && oracle x.ip == some asn) = [] := by
      rw [List.filter_eq_nil_iff]
      intro x hx
      have hnet : x.net = Net.ipv6 := by
        simpa using (List.mem_filter.mp hx).2
      simp [hnet]
    have ho : (zmg.filter (fun ip => ip.net == Net.onion)).filter
        (fun x => x.net == Net.ipv4 && oracle x.ip == some asn) = [] := by
      rw [List.filter_eq_nil_iff]
      intro x hx
      have hnet : x.net = Net.onion := by
        simpa using (List.mem_filter.mp hx).2
      simp [hnet]
    rw [h6, ho]
    simp only [List.length_nil, Nat.add_zero]
    have heq : (filterbyasnGo oracle MAX_SEEDS_PER_ASN NSEEDS
        (zmg.filter (fun ip => ip.net == Net.ipv4)) [] (fun _ => 0) []).1.filter
          (fun x => x.net == Net.ipv4 && oracle x.ip == some asn)
        = (filterbyasnGo oracle MAX_SEEDS_PER_ASN NSEEDS
            (zmg.filter (fun ip => ip.net == Net.ipv4)) [] (fun _ => 0) []).1.filter
              (fun x => oracle x.ip == some asn) := by
      apply List.filter_congr
      intro x hx
      rw [hmem4 x hx]
      simp
    rw [heq]
    exact hA asn
  · unfold filterbyasn
    simp only [List.filter_append, List.length_append]
    have h6 : (zmg.filter (fun ip => ip.net == Net.ipv6)).filter
        (fun x => x.net == Net.ipv4) = [] := by
      rw [List.filter_eq_nil_iff]
      intro x hx
      have hnet : x.net = Net.ipv6 := by
        simpa using (List.mem_filter.mp hx).2
      simp [hnet]
    have ho : (zmg.filter (fun ip => ip.net == Net.onion)).filter
        (fun x => x.net == Net.ipv4) = [] := by
      rw [List.filter_eq_nil_iff]
      intro x hx
      have hnet : x.net = Net.onion := by
        simpa using (List.mem_filter.mp hx).2
      simp [hnet]
    rw [h6, ho]
    simp only [List.length_nil, Nat.add_zero]
    have heq : (filterbyasnGo oracle MAX_SEEDS_PER_ASN NSEEDS
        (zmg.filter (fun ip => ip.net == Net.ipv4)) [] (fun _ => 0) []).1.filter
          (fun x => x.net == Net.ipv4)
        = (filterbyasnGo oracle MAX_SEEDS_PER_ASN NSEEDS
            (zmg.filter (fun ip => ip.net == Net.ipv4)) [] (fun _ => 0) []).1 := by
      rw [List.filter_eq_self]
      exact hmem4
    rw [heq]
    exact hB
  · intro hnet
    unfold filterbyasn
    simp only [List.mem_append]
    rcases hnet with hnet | hnet
    · exact Or.inl (Or.inr (List.mem_filter.mpr ⟨hr, by simp [hnet]⟩))
    · exact Or.inr (List.mem_filter.mpr ⟨hr, by simp [hnet]⟩)
  · refine ⟨fun _ => none, List.replicate 513 sample6, ?_⟩
    unfold filterbyasn
    simp only
    rw [filter_replicate_false (fun ip : Record => ip.net == Net.ipv4) sample6
        (by decide) 513,
      filter_replicate_true (fun ip : Record => ip.net == Net.ipv6) sample6
        (by decide) 513,
      filter_replicate_false (fun ip : Record => ip.net == Net.onion) sample6
        (by decide) 513]
    rw [filterbyasnGo_nil]
    simp only [List.nil_append, List.append_nil, List.length_replicate, NSEEDS]
    omega

/-- Witness for C1 at a one-record IPv6 input. -/
theorem C1_origin_diversity_caps_witness :
    sample6 ∈ [sample6] ∧
      ((sample6.net = Net.ipv6 ∨ sample6.net = Net.onion) →
        sample6 ∈ (filterbyasn (fun _ => some 7) MAX_SEEDS_PER_ASN NSEEDS
          [sample6]).1) :=
  ⟨List.mem_singleton_self sample6,
    (C1_origin_diversity_caps (fun _ => some 7) [sample6] 7 sample6
      (List.mem_singleton_self sample6)).2.2.1⟩

/-- Messages already logged survive the rest of the ASN loop. -/
theorem filterbyasnGo_errs_mono (oracle : String → Option Int) (m t : Nat) :
    ∀ (l res : List Record) (counts : Int → Nat) (errs : List String)
      (msg : String), msg ∈ errs →
      msg ∈ (filterbyasnGo oracle m t l res counts errs).2 := by
  intro l
  induction l with
  | nil =>
    intro res counts errs msg h
    simpa [filterbyasnGo] using h
  | cons ip rest ih =>
    intro res counts errs msg h
    by_cases hfull : res.length = t
    · rw [filterbyasnGo_cons_full oracle m t ip rest res counts errs hfull]
      exact h
    · cases ho : oracle ip.ip with
      | none =>
        rw [filterbyasnGo_cons_none oracle m t ip rest res counts errs hfull ho]
        exact ih _ _ _ msg (by simp [h])
      | some asn =>
        by_cases hmax : counts asn = m
        · rw [filterbyasnGo_cons_skip oracle m t ip rest res counts errs asn
            hfull ho hmax]
          exact ih _ _ _ msg h
        · rw [filterbyasnGo_cons_accept oracle m t ip rest res counts errs asn
            hfull ho hmax]
          exact ih _ _ _ msg h

/-- **C8** — When an IPv4 record's ASN lookup fails and the global cap has
not yet been reached, the loop writes the diagnostic line for it, keeps
the accepted list and the per-ASN counters unchanged, and continues with
the remaining records; and a record whose lookup fails is never in the
final accepted set. -/
theorem C8_lookup_failure_drops_record (oracle : String → Option Int)
    (m t : Nat) (ip : Record) (rest res : List Record) (counts : Int → Nat)
    (errs : List String) (zmg : List Record) (r : Record)
    (h1 : res.length ≠ t) (h2 : oracle ip.ip = none)
    (h3 : r.net = Net.ipv4) (h4 : oracle r.ip = none) :
    filterbyasnGo oracle m t (ip :: rest) res counts errs
        = filterbyasnGo oracle m t rest res counts (errs ++ [asnErrMsg ip.ip]) ∧
      asnErrMsg ip.ip ∈ (filterbyasnGo oracle m t (ip :: rest) res counts errs).2 ∧
      r ∉ (filterbyasn oracle m t zmg).1 := by
  have hstep := filterbyasnGo_cons_none oracle m t ip rest res counts errs h1 h2
  refine ⟨hstep, ?_, ?_⟩
  · rw [hstep]
    exact filterbyasnGo_errs_mono oracle m t _ _ _ _ _ (by simp)
  · intro hmem
    unfold filterbyasn at hmem
    simp only [List.mem_append] at hmem
    rcases hmem with (hmem | hmem) | hmem
    · rcases (filterbyasnGo_spec oracle m t
          (zmg.filter (fun ip => ip.net == Net.ipv4)) [] (fun _ => 0) []
          (fun _ => rfl) (fun _ => Nat.zero_le _) (Nat.zero_le _)).2.2 r hmem with
        h | ⟨_, a, ha⟩
      · cases h
      · rw [h4] at ha
        cases ha
    · have : (r.net == Net.ipv6) = true := (List.mem_filter.mp hmem).2
      rw [h3] at this
      cases this
    · have : (r.net == Net.onion) = true := (List.mem_filter.mp hmem).2
      rw [h3] at this
      cases this

/-- Witness for C8 at a failing lookup on a concrete IPv4 record. -/
theorem C8_lookup_failure_drops_record_witness :
    (([] : List Record).length ≠ 512 ∧
        (fun _ : String => (none : Option Int)) sample4.ip = none ∧
        sample4.net = Net.ipv4) ∧
      (filterbyasnGo (fun _ => none) 2 512 [sample4] [] (fun _ => 0) []
          = filterbyasnGo (fun _ => none) 2 512 [] [] (fun _ => 0)
              ([] ++ [asnErrMsg sample4.ip]) ∧
        asnErrMsg sample4.ip
          ∈ (filterbyasnGo (fun _ => none) 2 512 [sample4] [] (fun _ => 0) []).2 ∧
        sample4 ∉ (filterbyasn (fun _ => none) 2 512 [sample4]).1) :=
  ⟨⟨by decide, rfl, rfl⟩,
    C8_lookup_failure_drops_record (fun _ => none) 2 512 sample4 [] []
      (fun _ => 0) [] [sample4] sample4 (by decide) rfl rfl rfl⟩

/-- **C6** — The emitted output is the final accepted set (a permutation)
sorted ascending by `(net, sortkey)` and rendered one address per line,
IPv6 addresses bracketed before the port, IPv4 and onion addresses as
`address:port`; in particular two surviving IPv4 records appear in
nondecreasing numeric-sort-key order, so the smaller key is emitted
first. -/
theorem C6_deterministic_emission (final : List Record) :
    emitLines final = (sort2 final).map formatRecord ∧
    (sort2 final).Perm final ∧
    (sort2 final).Pairwise (fun a b => key2Le a b = true) ∧
    (∀ r ∈ final,
      (r.net = Net.ipv6 → formatRecord r = "[" ++ r.ip ++ "]:" ++ natRepr r.port) ∧
      (r.net ≠ Net.ipv6 → formatRecord r = r.ip ++ ":" ++ natRepr r.port)) ∧
    (sort2 final).Pairwise (fun a b => a.net = Net.ipv4 → b.net = Net.ipv4 →
      ∀ ma nb, a.sortkey = SortKey.num ma → b.sortkey = SortKey.num nb → ma ≤ nb) := by
  have hsorted : (sort2 final).Pairwise (fun a b => key2Le a b = true) :=
    List.sorted_mergeSort key2Le_trans key2Le_total final
  refine ⟨rfl, List.mergeSort_perm final key2Le, hsorted, ?_, ?_⟩
  · intro r _
    constructor
    · intro h6
      unfold formatRecord
      rw [if_pos (by simp [h6])]
    · intro h6
      unfold formatRecord
      rw [if_neg (by simpa using h6)]
  · apply hsorted.imp
    intro a b hle ha hb ma nb hma hnb
    simp only [key2Le, Bool.or_eq_true, Bool.and_eq_true, decide_eq_true_eq] at hle
    rcases hle with hlt | ⟨_, hsk⟩
    · rw [ha, hb] at hlt
      exact absurd hlt (lt_irrefl _)
    · rw [hma, hnb] at hsk
      simpa [skLe] using hsk

end Makeseeds